import Mathlib

/-!
Verification of the custom-rule label-derivation engine of
node-feature-discovery (source/custom and pkg/apis/nfd/v1alpha1).

The Go source is shallowly embedded: Go maps (`map[string]T`) become
association lists (`List (String × T)`) with unique-key update semantics,
`(T, error)` return pairs become `T × Option String` (or `Except String T`
where the Go function communicates purely by early returns), and the two
external collaborators — the match-expression evaluator
(`MatchExpressionSet.MatchGetKeys/Values/Instances`, which lives outside the
supplied sources) and the text/template engine (Go standard library) — are
abstracted by their observable results, which is all the embedded code ever
inspects of them.
-/

/-- Association-list lookup, modelling Go map indexing `m[k]`. -/
def assocLookup {α : Type} (m : List (String × α)) (k : String) : Option α :=
  match m with
  | [] => none
  | p :: rest => if p.1 = k then some p.2 else assocLookup rest k

/-- Association-list update, modelling Go map assignment `m[k] = v`:
replaces the binding of `k` when present, otherwise appends it. -/
def assocUpdate {α : Type} (m : List (String × α)) (k : String) (v : α) :
    List (String × α) :=
  match m with
  | [] => [(k, v)]
  | p :: rest => if p.1 = k then (k, v) :: rest else p :: assocUpdate rest k v

/-- Keys of an association list. -/
def assocKeys {α : Type} (m : List (String × α)) : List String := m.map Prod.fst

/-- Label maps (`map[string]string` in Go). -/
abbrev Labels := List (String × String)

/-- Merge `src` into `dst`, modelling the Go loop
`for k, v := range src { dst[k] = v }`. -/
def mergeLabels (dst : Labels) (src : Labels) : Labels :=
  src.foldl (fun acc p => assocUpdate acc p.1 p.2) dst

/-- Whitespace predicate of Go `unicode.IsSpace` restricted to the space
characters that can actually occur here (ASCII spacing characters plus NEL
and NBSP; the full Go predicate also accepts further Unicode space runes,
none of which appear in any input considered in this development). -/
def isSpaceGo (c : Char) : Bool :=
  c = ' ' || c = '\t' || c = '\n' || c = '\x0b' || c = '\x0c' || c = '\r' ||
    c = '\x85' || c = '\xa0'

/-- Go `strings.TrimSpace`: drop leading and trailing whitespace. -/
def trimSpace (s : String) : String :=
  String.mk (((s.toList.dropWhile isSpaceGo).reverse.dropWhile isSpaceGo).reverse)

/-- Split a character list at the first occurrence of `c`;
`none` when `c` does not occur. -/
def splitCharList (c : Char) : List Char → Option (List Char × List Char)
  | [] => none
  | x :: xs =>
    if x = c then some ([], xs)
    else
      match splitCharList c xs with
      | none => none
      | some (pre, post) => some (x :: pre, post)

/-- Go `strings.SplitN(s, sep, 2)` for a single-character separator,
reported as `none` when the separator is absent (Go returns a 1-element
slice there) and as the two parts otherwise. -/
def splitOnFirst (s : String) (c : Char) : Option (String × String) :=
  match splitCharList c s.toList with
  | none => none
  | some (pre, post) => some (String.mk pre, String.mk post)

/-- Auxiliary recursion for `splitChar`: `acc` holds the current field in
reverse. -/
def splitCharAux (c : Char) : List Char → List Char → List String
  | [], acc => [String.mk acc.reverse]
  | x :: xs, acc =>
    if x = c then String.mk acc.reverse :: splitCharAux c xs []
    else splitCharAux c xs (x :: acc)

/-- Go `strings.Split(s, sep)` for a single-character separator. -/
def splitChar (c : Char) (s : String) : List String :=
  splitCharAux c s.toList []

/-- Go `strings.ToLower` (every string it is applied to here is ASCII, on
which per-character lowercasing coincides with Go's Unicode mapping). -/
def toLowerGo (s : String) : String :=
  String.mk (s.toList.map Char.toLower)

/-! ## Feature data model (pkg/api/feature) -/

/-- A key feature set: presence-only element names
(`KeyFeatureSet{Elements map[string]Nil}`). -/
structure KeyFeatureSet where
  elements : List String
  deriving DecidableEq

/-- A value feature set: attribute name to scalar string
(`ValueFeatureSet{Elements map[string]string}`). -/
structure ValueFeatureSet where
  elements : List (String × String)
  deriving DecidableEq

/-- One instance: an attribute map
(`InstanceFeature{Attributes map[string]string}`). -/
structure InstanceFeature where
  attributes : List (String × String)
  deriving DecidableEq

/-- An instance feature set: ordered list of instances. -/
structure InstanceFeatureSet where
  elements : List InstanceFeature
  deriving DecidableEq

/-- Per-domain features: the three independent feature-set mappings
(`feature.DomainFeatures`). -/
structure DomainFeatures where
  keys : List (String × KeyFeatureSet)
  values : List (String × ValueFeatureSet)
  instances : List (String × InstanceFeatureSet)
  deriving DecidableEq

/-- The feature snapshot handed to rule execution
(`map[string]*feature.DomainFeatures`). -/
abbrev Features := List (String × DomainFeatures)

/-! ## Matched features and match expressions -/

/-- The matched subset recorded for one resolved feature: the `v` stored by
`ret[domain][featureName] = v` in `FeatureMatcher.match`, one variant per
feature-set shape. -/
inductive MatchedValue where
  | keys (v : List String)
  | values (v : List (String × String))
  | instances (v : List InstanceFeature)
  deriving DecidableEq

/-- The emptiness test behind `m = len(v) > 0` in `FeatureMatcher.match`. -/
def MatchedValue.isEmpty : MatchedValue → Bool
  | .keys v => v.isEmpty
  | .values v => v.isEmpty
  | .instances v => v.isEmpty

/-- `domainMatchedFeatures` (feature name to matched subset). -/
abbrev DomainMatchedFeatures := List (String × MatchedValue)

/-- `matchedFeatures` (domain name to per-domain matched features). -/
abbrev MatchedFeatures := List (String × DomainMatchedFeatures)

/-- The pair of Go map updates in `FeatureMatcher.match`:
`if _, ok := ret[domain]; !ok { ret[domain] = make(...) };
ret[domain][featureName] = v`. -/
def mfInsert (mf : MatchedFeatures) (domain featureName : String)
    (v : MatchedValue) : MatchedFeatures :=
  assocUpdate mf domain (assocUpdate ((assocLookup mf domain).getD []) featureName v)

/-- A match-expression set, abstracted by the results of its three
evaluation methods (the evaluator itself lives in a package outside the
supplied sources; `FeatureMatcher.match` only ever observes the returned
matched subset and error of `MatchGetKeys` / `MatchGetValues` /
`MatchGetInstances`, modelled here as the Go `(value, error)` pairs). -/
structure MatchExpressionSet where
  matchGetKeys : List String → List String × Option String
  matchGetValues : List (String × String) → List (String × String) × Option String
  matchGetInstances : List InstanceFeature → List InstanceFeature × Option String

/-- One term of a feature matcher (`FeatureMatcherTerm`). -/
structure FeatureMatcherTerm where
  feature : String
  matchExpressions : MatchExpressionSet

/-- A feature matcher: ordered list of terms, combined with logical AND. -/
abbrev FeatureMatcher := List FeatureMatcherTerm

/-- Outcome of the loop body of `FeatureMatcher.match` for a single term:
either one of the three resolution errors, or the resolved domain and
(lowercased) feature name together with the matched subset `v` and the
expression-evaluation error `e`. -/
inductive TermResult where
  | err (e : String)
  | res (domain featureName : String) (v : MatchedValue) (e : Option String)

/-- The per-term part of `FeatureMatcher.match`: split the feature
reference on the first `.`, resolve the domain, then resolve the feature
name against the key, value and instance sets in that order. -/
def FeatureMatcherTerm.eval (features : Features) (t : FeatureMatcherTerm) :
    TermResult :=
  match splitOnFirst t.feature '.' with
  | none => .err ("invalid feature \"" ++ t.feature ++ "\": must be <domain>.<feature>")
  | some (domain, rest) =>
    let featureName := toLowerGo rest
    match assocLookup features domain with
    | none => .err ("unknown feature source/domain \"" ++ domain ++ "\"")
    | some domainFeatures =>
      match assocLookup domainFeatures.keys featureName with
      | some f =>
        let r := t.matchExpressions.matchGetKeys f.elements
        .res domain featureName (.keys r.1) r.2
      | none =>
        match assocLookup domainFeatures.values featureName with
        | some f =>
          let r := t.matchExpressions.matchGetValues f.elements
          .res domain featureName (.values r.1) r.2
        | none =>
          match assocLookup domainFeatures.instances featureName with
          | some f =>
            let r := t.matchExpressions.matchGetInstances f.elements
            .res domain featureName (.instances r.1) r.2
          | none =>
            .err ("\"" ++ featureName ++ "\" feature of source/domain \"" ++
              domain ++ "\" not available")

/-- The term loop of `FeatureMatcher.match`: logical AND over the terms,
recording every resolved subset in `ret`, propagating evaluation errors,
and short-circuiting with `(nil, nil)` on the first non-matching term. -/
def matchTermsLoop (features : Features) :
    List FeatureMatcherTerm → MatchedFeatures → Option MatchedFeatures × Option String
  | [], ret => (some ret, none)
  | t :: rest, ret =>
    match t.eval features with
    | .err e => (none, some e)
    | .res domain featureName v e =>
      let ret' := mfInsert ret domain featureName v
      match e with
      | some e => (none, some e)
      | none => if v.isEmpty then (none, none) else matchTermsLoop features rest ret'

/-- `FeatureMatcher.match` (named `match'` because `match` is a Lean
keyword): the Go pair `(matchedFeatures, error)`. -/
def FeatureMatcher.match' (m : FeatureMatcher) (features : Features) :
    Option MatchedFeatures × Option String :=
  matchTermsLoop features m []

/-- `MatchAnyElem`: one alternative of a `matchAny` list. -/
structure MatchAnyElem where
  matchFeatures : FeatureMatcher

/-- `MatchAnyElem.match`. -/
def MatchAnyElem.match' (e : MatchAnyElem) (features : Features) :
    Option MatchedFeatures × Option String :=
  e.matchFeatures.match' features

/-! ## Modern rules (source/custom `Rule`, identical in control flow to
pkg/apis/nfd/v1alpha1 `Rule.Execute`) -/

/-- A modern rule. `labelsTemplate` is the compiled label template
(`*template.Template`, compiled eagerly by `SetConfig`), abstracted by the
result of executing it against a matched-features input; `none` models a
rule without a template. -/
structure Rule where
  name : String
  labels : Labels
  labelsTemplate : Option (MatchedFeatures → Except String String)
  matchFeatures : FeatureMatcher
  matchAny : List MatchAnyElem

/-- The label-parsing loop body of `Rule.executeLabelsTemplate`
(source/custom): trim the line, skip it when blank, split once on the
first `=`, and store `true` as the value when there is no `=`. -/
def parseLine (out : Labels) (item : String) : Labels :=
  let trimmed := trimSpace item
  if trimmed = "" then out
  else
    match splitOnFirst trimmed '=' with
    | none => assocUpdate out trimmed "true"
    | some (k, v) => assocUpdate out k v

/-- The label-splitting part of `Rule.executeLabelsTemplate`
(source/custom): split the expanded template output on newlines and parse
each line into `out`. -/
def expandLabels (expanded : String) (out : Labels) : Labels :=
  (splitChar '\n' expanded).foldl parseLine out

/-- `Rule.executeLabelsTemplate` (source/custom): a no-op without a
template, otherwise execute the template and expand its output into
`out`. -/
def Rule.executeLabelsTemplate (r : Rule) (input : MatchedFeatures)
    (out : Labels) : Except String Labels :=
  match r.labelsTemplate with
  | none => .ok out
  | some tmpl =>
    match tmpl input with
    | .error e => .error e
    | .ok expanded => .ok (expandLabels expanded out)

/-- Result of one phase of `Rule.execute`: an early `return nil, err`, an
early `return nil, nil`, or falling through with the accumulator `ret`. -/
inductive PhaseResult where
  | error (e : String)
  | noMatch
  | cont (ret : Labels)
  deriving DecidableEq

/-- The `matchAny` loop of `Rule.execute`: logical OR over the
alternatives; an alternative error returns it; a match either breaks out
(no template) or expands the template into `ret` and keeps going. -/
def Rule.matchAnyLoop (r : Rule) (features : Features) :
    List MatchAnyElem → Bool → Labels → PhaseResult
  | [], matched, ret => if matched then .cont ret else .noMatch
  | elem :: rest, matched, ret =>
    match elem.match' features with
    | (_, some e) => .error e
    | (none, none) => r.matchAnyLoop features rest matched ret
    | (some m, none) =>
      match r.labelsTemplate with
      | none => .cont ret
      | some _ =>
        match r.executeLabelsTemplate m ret with
        | .error e => .error e
        | .ok ret' => r.matchAnyLoop features rest true ret'

/-- The `matchAny` block of `Rule.execute` (skipped when the list is
empty). -/
def Rule.matchAnyPhase (r : Rule) (features : Features) : PhaseResult :=
  if r.matchAny.length > 0 then r.matchAnyLoop features r.matchAny false []
  else .cont []

/-- The `matchFeatures` block of `Rule.execute` (skipped when the matcher
is empty). -/
def Rule.matchFeaturesPhase (r : Rule) (features : Features) (ret : Labels) :
    PhaseResult :=
  if r.matchFeatures.length > 0 then
    match r.matchFeatures.match' features with
    | (_, some e) => .error e
    | (none, none) => .noMatch
    | (some m, none) =>
      match r.executeLabelsTemplate m ret with
      | .error e => .error e
      | .ok ret' => .cont ret'
  else .cont ret

/-- `Rule.execute`: the Go pair `(map[string]string, error)`; the static
labels are merged into `ret` last, on the fall-through path only. -/
def Rule.execute (r : Rule) (features : Features) : Option Labels × Option String :=
  match r.matchAnyPhase features with
  | .error e => (none, some e)
  | .noMatch => (none, none)
  | .cont ret =>
    match r.matchFeaturesPhase features ret with
    | .error e => (none, some e)
    | .noMatch => (none, none)
    | .cont ret' => (some (mergeLabels ret' r.labels), none)

/-- `templateHelper.expandMap` (pkg/apis/nfd/v1alpha1): the same
split/trim/parse loop as `expandLabels`, except that it builds a fresh map
and a line without `=` is stored with the empty string as its value. -/
def templateHelper.expandMapLines (expanded : String) : Labels :=
  (splitChar '\n' expanded).foldl
    (fun out item =>
      let trimmed := trimSpace item
      if trimmed = "" then out
      else
        match splitOnFirst trimmed '=' with
        | none => assocUpdate out trimmed ""
        | some (k, v) => assocUpdate out k v) []

/-! ## Legacy rules -/

/-- `LegacyMatcher`: up to six optional sub-rule slots. Each populated
slot's `Match()` consults its own global raw-feature source and returns a
Go `(bool, error)` pair, abstracted here by that result. -/
structure LegacyMatcher where
  pciID : Option (Bool × Option String)
  usbID : Option (Bool × Option String)
  loadedKMod : Option (Bool × Option String)
  cpuID : Option (Bool × Option String)
  kconfig : Option (Bool × Option String)
  nodename : Option (Bool × Option String)

/-- The `allRules` slice built inside `LegacyMatcher.match`. -/
def LegacyMatcher.allRules (m : LegacyMatcher) : List (Option (Bool × Option String)) :=
  [m.pciID, m.usbID, m.loadedKMod, m.cpuID, m.kconfig, m.nodename]

/-- The `matchRules` closure of `LegacyMatcher.match`: AND over the slots,
skipping nil slots, propagating the first error, failing on the first
non-match. -/
def matchRules : List (Option (Bool × Option String)) → Bool × Option String
  | [] => (true, none)
  | none :: rest => matchRules rest
  | some (_, some e) :: _ => (false, some e)
  | some (false, none) :: _ => (false, none)
  | some (true, none) :: rest => matchRules rest

/-- `LegacyMatcher.match`. -/
def LegacyMatcher.match' (m : LegacyMatcher) : Bool × Option String :=
  matchRules m.allRules

/-- A legacy rule (`LegacyRule`). -/
structure LegacyRule where
  name : String
  value : Option String
  matchOn : List LegacyMatcher

/-- The `MatchOn` loop of `LegacyRule.execute`: logical OR, first success
wins, errors propagate. -/
def LegacyRule.matchOnLoop : List LegacyMatcher → Except String Bool
  | [] => .ok false
  | m :: rest =>
    match m.match' with
    | (_, some e) => .error e
    | (true, none) => .ok true
    | (false, none) => LegacyRule.matchOnLoop rest

/-- `LegacyRule.execute`: OR over `MatchOn` when non-empty; on overall
match emit the single label `name: value` (value defaulting to `"true"`).
The Go function takes the feature snapshot but never reads it (legacy
sub-rules consult global sources). -/
def LegacyRule.execute (r : LegacyRule) (_features : Features) :
    Option Labels × Option String :=
  if r.matchOn.length > 0 then
    match LegacyRule.matchOnLoop r.matchOn with
    | .error e => (none, some e)
    | .ok false => (none, none)
    | .ok true => (some [(r.name, r.value.getD "true")], none)
  else (some [(r.name, r.value.getD "true")], none)

/-! ## Combined rules, decoding, encoding, and the label-derivation loop -/

/-- `CustomRule`: the tagged pair of optional dialect variants. -/
structure CustomRule where
  legacyRule : Option LegacyRule
  rule : Option Rule

/-- `CustomRule.execute`: dispatch to the populated variant, wrapping its
error; an empty wrapper is an error. -/
def CustomRule.execute (c : CustomRule) (features : Features) :
    Option Labels × Option String :=
  match c.legacyRule with
  | some lr =>
    match lr.execute features with
    | (_, some e) => (none, some ("failed to execute legacy rule " ++ lr.name ++ ": " ++ e))
    | (ruleOut, none) => (ruleOut, none)
  | none =>
    match c.rule with
    | some r =>
      match r.execute features with
      | (_, some e) => (none, some ("failed to execute rule " ++ r.name ++ ": " ++ e))
      | (ruleOut, none) => (ruleOut, none)
    | none => (none, some "BUG: an empty rule, this really should not happen")

/-- The two decode targets of `CustomRule.UnmarshalJSON`. -/
inductive Dialect where
  | legacy
  | modern
  deriving DecidableEq

/-- The dialect-dispatch of `CustomRule.UnmarshalJSON`, applied to the
top-level keys of the generically parsed rule (`map[string]json.RawMessage`,
whose iteration order cannot affect the outcome): decode as a legacy rule
when some key lowercases to `"matchon"`, as a modern rule otherwise. -/
def CustomRule.unmarshalDialect (raw : List String) : Dialect :=
  if raw.any (fun k => toLowerGo k = "matchon") then .legacy else .modern

/-- The serialized form produced by `CustomRule.MarshalJSON`, retaining
which variant was marshalled (`json.Marshal` of these plain structs cannot
fail; a nil modern variant marshals as JSON `null`). -/
inductive MarshalOut where
  | legacyDoc (r : LegacyRule)
  | ruleDoc (r : Option Rule)

/-- `CustomRule.MarshalJSON`: serialize the legacy variant when populated,
the modern variant (possibly nil) otherwise. -/
def CustomRule.marshalJSON (c : CustomRule) : Except String MarshalOut :=
  match c.legacyRule with
  | some lr => .ok (.legacyDoc lr)
  | none => .ok (.ruleDoc c.rule)

/-- One iteration of the rule loop in `customSource.GetLabels`: a rule
whose execution errors is logged and skipped (its output is discarded),
any other rule's labels are merged into the accumulator (a nil map merges
nothing). -/
def getLabelsStep (features : Features) (labels : Labels) (rule : CustomRule) :
    Labels :=
  match rule.execute features with
  | (_, some _) => labels
  | (ruleOut, none) => mergeLabels labels (ruleOut.getD [])

/-- `customSource.GetLabels`, applied to the combined rule list (static,
configured, and directory rules): execute each rule in order via
`getLabelsStep` and always return a nil error for the whole pass. -/
def customSource.GetLabels (conf : List CustomRule) (features : Features) :
    Labels × Option String :=
  (conf.foldl (getLabelsStep features) [], none)

/-! ## Derived predicates and reference functions used by the statements -/

/-- The loop body of `FeatureMatcher.match` raises no error for this term:
it resolves and its expression evaluation reports a nil error. -/
def termNoError (features : Features) (t : FeatureMatcherTerm) : Bool :=
  match t.eval features with
  | .res _ _ _ none => true
  | _ => false

/-- This term matches at least one element (`m = len(v) > 0` holds for it)
and raises no error. -/
def termMatches (features : Features) (t : FeatureMatcherTerm) : Bool :=
  match t.eval features with
  | .res _ _ v none => !v.isEmpty
  | _ => false

/-- Reference accumulation of the template over a list of matched-features
results, in order: exactly the successive `executeLabelsTemplate` calls
the `matchAny` loop performs for its matching alternatives. -/
def Rule.accumulateMatches (r : Rule) : List MatchedFeatures → Labels → Except String Labels
  | [], ret => .ok ret
  | m :: rest, ret =>
    match r.executeLabelsTemplate m ret with
    | .error e => .error e
    | .ok ret' => r.accumulateMatches rest ret'

/-- Read an accumulation result back as a phase result. -/
def phaseOfAccum : Except String Labels → PhaseResult
  | .error e => .error e
  | .ok ret => .cont ret

/-! ## Concrete fixtures used by witnesses and counterexamples -/

/-- An expression set whose evaluation matches nothing (and never errs). -/
def mesNone : MatchExpressionSet :=
  ⟨fun _ => ([], none), fun _ => ([], none), fun _ => ([], none)⟩

/-- An expression set whose evaluation matches every element. -/
def mesAll : MatchExpressionSet :=
  ⟨fun v => (v, none), fun v => (v, none), fun v => (v, none)⟩

/-- A snapshot with one domain `cpu` holding one key feature set `flags`. -/
def cpuFeatures : Features :=
  [("cpu", ⟨[("flags", ⟨["sse", "avx"]⟩)], [], []⟩)]

/-- A term that resolves `cpu.flags` and matches both elements. -/
def termFlagsAll : FeatureMatcherTerm := ⟨"cpu.flags", mesAll⟩

/-- A term that resolves `cpu.flags` and matches no element. -/
def termFlagsNone : FeatureMatcherTerm := ⟨"cpu.flags", mesNone⟩

/-- A term referencing a domain absent from `cpuFeatures`. -/
def termUnknownDomain : FeatureMatcherTerm := ⟨"foo.bar", mesAll⟩

/-- A term referencing domain `cpu` but a feature name found in none of
its three feature sets. -/
def termUnknownFeature : FeatureMatcherTerm := ⟨"cpu.bar", mesAll⟩

/-- A compiled template that always produces the same output text. -/
def tmplConst (s : String) : MatchedFeatures → Except String String :=
  fun _ => .ok s

/-- A snapshot with two domains, `cpu` and `mem`. -/
def twoDomainFeatures : Features :=
  [("cpu", ⟨[("flags", ⟨["sse", "avx"]⟩)], [], []⟩),
   ("mem", ⟨[("numa", ⟨["n0"]⟩)], [], []⟩)]

/-- A term that resolves `mem.numa` and matches its element. -/
def termNumaAll : FeatureMatcherTerm := ⟨"mem.numa", mesAll⟩

/-- A matchAny alternative wrapping `termFlagsAll`. -/
def elemFlagsAll : MatchAnyElem := ⟨[termFlagsAll]⟩

/-- A matchAny alternative wrapping `termFlagsNone` (never matches). -/
def elemFlagsNone : MatchAnyElem := ⟨[termFlagsNone]⟩

/-- A matchAny alternative wrapping `termNumaAll`. -/
def elemNumaAll : MatchAnyElem := ⟨[termNumaAll]⟩

/-- A matchAny alternative wrapping `termUnknownDomain` (always errors). -/
def elemUnknownDomain : MatchAnyElem := ⟨[termUnknownDomain]⟩

/-- A compiled template producing the key `k` with a value that depends on
which alternative's matched features it is applied to. -/
def tmplByDomain : MatchedFeatures → Except String String :=
  fun mf => if (assocLookup mf "mem").isSome then .ok "k=late" else .ok "k=early"

/-- A templated rule whose second alternative raises an unknown-domain
error after the first alternative has already matched and expanded. -/
def ruleC10 : Rule :=
  ⟨"r10", [], some (tmplConst "k=v"), [], [elemFlagsAll, elemUnknownDomain]⟩

/-- A template-less rule with a non-matching, a matching and an erroring
alternative, in that order. -/
def ruleFirstMatchStops : Rule :=
  ⟨"r1", [("s", "v")], none, [], [elemFlagsNone, elemFlagsAll, elemUnknownDomain]⟩

/-- A templated rule with two matching alternatives whose template outputs
collide on the key `k`. -/
def ruleAccum : Rule :=
  ⟨"r2", [], some tmplByDomain, [], [elemFlagsAll, elemNumaAll]⟩

/-- An unconditional rule carrying only static labels. -/
def ruleStaticOnly : Rule := ⟨"r5", [("a", "b")], none, [], []⟩

/-- A rule with static labels whose single alternative never matches. -/
def ruleC5NoMatch : Rule := ⟨"r5n", [("a", "b")], none, [], [elemFlagsNone]⟩

/-- A combined rule holding an unconditional legacy rule named `n`. -/
def legacyGood (n : String) : CustomRule := ⟨some ⟨n, none, []⟩, none⟩

/-- The combined rule with neither variant populated. -/
def crEmpty : CustomRule := ⟨none, none⟩

/-- A legacy matcher with every slot unset. -/
def lmUnset : LegacyMatcher := ⟨none, none, none, none, none, none⟩

/-- A legacy matcher whose only populated slot reports a non-match. -/
def lmFail : LegacyMatcher := ⟨some (false, none), none, none, none, none, none⟩

/-! ## Helper lemmas: association lists and merging -/

theorem assocLookup_assocUpdate_self {α : Type} (m : List (String × α)) (k : String) (v : α) :
    assocLookup (assocUpdate m k v) k = some v := by
  induction m with
  | nil => simp [assocUpdate, assocLookup]
  | cons p rest ih =>
    by_cases h : p.1 = k
    · simp [assocUpdate, h, assocLookup]
    · simp [assocUpdate, h, assocLookup, ih]

theorem assocLookup_assocUpdate_ne {α : Type} (m : List (String × α)) (k k' : String) (v : α)
    (h : k' ≠ k) : assocLookup (assocUpdate m k v) k' = assocLookup m k' := by
  have hne : ¬(k = k') := fun hh => h hh.symm
  induction m with
  | nil => simp [assocUpdate, assocLookup, hne]
  | cons p rest ih =>
    by_cases hp : p.1 = k
    · simp only [assocUpdate, if_pos hp, assocLookup]
      rw [if_neg hne, if_neg (hp ▸ hne)]
    · simp [assocUpdate, hp, assocLookup, ih]

theorem mergeLabels_nil (dst : Labels) : mergeLabels dst [] = dst := rfl

theorem mergeLabels_cons (dst : Labels) (p : String × String) (rest : Labels) :
    mergeLabels dst (p :: rest) = mergeLabels (assocUpdate dst p.1 p.2) rest := rfl

theorem assocLookup_mergeLabels_not_mem (src : Labels) :
    ∀ (dst : Labels) (k : String), k ∉ assocKeys src →
      assocLookup (mergeLabels dst src) k = assocLookup dst k := by
  induction src with
  | nil => intro dst k _; rfl
  | cons p rest ih =>
    intro dst k h
    have h1 : k ∉ assocKeys rest := fun hm => h (by simp [assocKeys] at hm ⊢; right; exact hm)
    have h2 : p.1 ≠ k := fun he => h (by simp [assocKeys]; left; exact he.symm)
    rw [mergeLabels_cons, ih _ _ h1, assocLookup_assocUpdate_ne _ _ _ _ (fun he => h2 he.symm)]

theorem assocLookup_mergeLabels_of_lookup (src : Labels) :
    ∀ (dst : Labels) (k : String) (v : String),
      assocLookup src k = some v → (assocKeys src).Nodup →
      assocLookup (mergeLabels dst src) k = some v := by
  induction src with
  | nil => intro dst k v h _; cases h
  | cons p rest ih =>
    intro dst k v h hnd
    have hnd' : p.1 ∉ assocKeys rest ∧ (assocKeys rest).Nodup := by
      simpa [assocKeys, List.nodup_cons] using hnd
    rw [mergeLabels_cons]
    by_cases hp : p.1 = k
    · have hv : p.2 = v := by
        rw [assocLookup, if_pos hp] at h
        exact Option.some.inj h
      have hk : k ∉ assocKeys rest := hp ▸ hnd'.1
      rw [assocLookup_mergeLabels_not_mem rest _ _ hk, hp, hv,
        assocLookup_assocUpdate_self]
    · have h' : assocLookup rest k = some v := by rwa [assocLookup, if_neg hp] at h
      exact ih _ _ _ h' hnd'.2

/-! ## Helper lemmas: splitting on the first separator -/

theorem splitCharList_eq_none_iff (c : Char) :
    ∀ l : List Char, splitCharList c l = none ↔ c ∉ l := by
  intro l
  induction l with
  | nil => simp [splitCharList]
  | cons x xs ih =>
    by_cases hx : x = c
    · subst hx
      simp [splitCharList]
    · rw [splitCharList, if_neg hx]
      cases hs : splitCharList c xs with
      | none =>
        have hmem : c ∉ xs := ih.mp hs
        have hcx : ¬c = x := fun he => hx he.symm
        simp [hmem, hcx]
      | some pr =>
        obtain ⟨pre, post⟩ := pr
        have hmem : c ∈ xs := by
          by_contra hc
          rw [ih.mpr hc] at hs
          simp at hs
        simp [hmem]

theorem splitCharList_eq_some (c : Char) :
    ∀ (l pre post : List Char), splitCharList c l = some (pre, post) →
      l = pre ++ c :: post ∧ c ∉ pre := by
  intro l
  induction l with
  | nil => intro pre post h; cases h
  | cons x xs ih =>
    intro pre post h
    by_cases hx : x = c
    · rw [splitCharList, if_pos hx] at h
      have h' := Option.some.inj h
      simp only [Prod.mk.injEq] at h'
      obtain ⟨rfl, rfl⟩ := h'
      exact ⟨by simp [hx], by simp⟩
    · rw [splitCharList, if_neg hx] at h
      cases hs : splitCharList c xs with
      | none => rw [hs] at h; cases h
      | some pr =>
        obtain ⟨pre', post'⟩ := pr
        rw [hs] at h
        have h' := Option.some.inj h
        simp only [Prod.mk.injEq] at h'
        obtain ⟨rfl, rfl⟩ := h'
        obtain ⟨hl, hnm⟩ := ih pre' post' hs
        constructor
        · rw [hl]; rfl
        · simp only [List.mem_cons, not_or]
          exact ⟨fun he => hx he.symm, hnm⟩

/-! ## Helper lemmas: the term loop of FeatureMatcher.match -/

theorem eval_of_termNoError {features : Features} {t : FeatureMatcherTerm}
    (h : termNoError features t = true) :
    ∃ d f v, t.eval features = .res d f v none := by
  unfold termNoError at h
  cases he : t.eval features with
  | err e => rw [he] at h; simp at h
  | res d f v e =>
    cases e with
    | none => exact ⟨d, f, v, rfl⟩
    | some e' => rw [he] at h; simp at h

theorem termMatches_isEmpty {features : Features} {t : FeatureMatcherTerm}
    {d f : String} {v : MatchedValue} (he : t.eval features = .res d f v none) :
    termMatches features t = !v.isEmpty := by
  unfold termMatches
  rw [he]

theorem matchTermsLoop_cons (features : Features) (t : FeatureMatcherTerm)
    (rest : List FeatureMatcherTerm) (ret : MatchedFeatures) {d f : String}
    {v : MatchedValue} (he : t.eval features = .res d f v none) :
    matchTermsLoop features (t :: rest) ret =
      if v.isEmpty then (none, none)
      else matchTermsLoop features rest (mfInsert ret d f v) := by
  rw [matchTermsLoop, he]

theorem matchTermsLoop_all (features : Features) :
    ∀ (ts : List FeatureMatcherTerm) (ret : MatchedFeatures),
      (∀ t ∈ ts, termNoError features t = true) →
      (∀ t ∈ ts, termMatches features t = true) →
      ∃ mf, matchTermsLoop features ts ret = (some mf, none) := by
  intro ts
  induction ts with
  | nil => intro ret _ _; exact ⟨ret, rfl⟩
  | cons t rest ih =>
    intro ret hne hm
    obtain ⟨d, f, v, he⟩ := eval_of_termNoError (hne t (by simp))
    have hmt : termMatches features t = true := hm t (by simp)
    rw [termMatches_isEmpty he] at hmt
    have hv : v.isEmpty = false := by simpa using hmt
    rw [matchTermsLoop_cons features t rest ret he, if_neg (by simp [hv])]
    exact ih _ (fun s hs => hne s (by simp [hs])) (fun s hs => hm s (by simp [hs]))

theorem matchTermsLoop_fail (features : Features) :
    ∀ (ts : List FeatureMatcherTerm) (ret : MatchedFeatures),
      (∀ t ∈ ts, termNoError features t = true) →
      (∃ t ∈ ts, termMatches features t = false) →
      matchTermsLoop features ts ret = (none, none) := by
  intro ts
  induction ts with
  | nil => intro ret _ hex; obtain ⟨t, ht, _⟩ := hex; cases ht
  | cons t rest ih =>
    intro ret hne hex
    obtain ⟨d, f, v, he⟩ := eval_of_termNoError (hne t (by simp))
    rw [matchTermsLoop_cons features t rest ret he]
    by_cases hv : v.isEmpty = true
    · rw [if_pos hv]
    · rw [if_neg hv]
      obtain ⟨s, hs, hsf⟩ := hex
      rcases List.mem_cons.mp hs with rfl | hs'
      · exact absurd ((termMatches_isEmpty he).symm ▸ hsf)
          (by simp [Bool.not_eq_true'] at hv ⊢; exact hv)
      · exact ih _ (fun u hu => hne u (by simp [hu])) ⟨s, hs', hsf⟩

theorem matchTermsLoop_append_matching (features : Features) :
    ∀ (pre l : List FeatureMatcherTerm) (ret : MatchedFeatures),
      (∀ t ∈ pre, termNoError features t = true) →
      (∀ t ∈ pre, termMatches features t = true) →
      ∃ ret', matchTermsLoop features (pre ++ l) ret = matchTermsLoop features l ret' := by
  intro pre
  induction pre with
  | nil => intro l ret _ _; exact ⟨ret, rfl⟩
  | cons t rest ih =>
    intro l ret hne hm
    obtain ⟨d, f, v, he⟩ := eval_of_termNoError (hne t (by simp))
    have hmt : termMatches features t = true := hm t (by simp)
    rw [termMatches_isEmpty he] at hmt
    have hv : v.isEmpty = false := by simpa using hmt
    rw [List.cons_append, matchTermsLoop_cons features t (rest ++ l) ret he,
      if_neg (by simp [hv])]
    exact ih l _ (fun s hs => hne s (by simp [hs])) (fun s hs => hm s (by simp [hs]))

/-! ## Helper lemmas: legacy matchers -/

theorem matchRules_all_pass :
    ∀ l : List (Option (Bool × Option String)),
      (∀ s ∈ l, s = none ∨ s = some (true, none)) → matchRules l = (true, none) := by
  intro l
  induction l with
  | nil => intro _; rfl
  | cons s rest ih =>
    intro h
    rcases h s (by simp) with hs | hs <;> subst hs
    · exact ih fun u hu => h u (by simp [hu])
    · exact ih fun u hu => h u (by simp [hu])

theorem matchRules_first_fail :
    ∀ (pre post : List (Option (Bool × Option String))),
      (∀ s ∈ pre, s = none ∨ s = some (true, none)) →
      matchRules (pre ++ some (false, none) :: post) = (false, none) := by
  intro pre
  induction pre with
  | nil => intro post _; rfl
  | cons s rest ih =>
    intro post h
    rcases h s (by simp) with hs | hs <;> subst hs
    · exact ih post fun u hu => h u (by simp [hu])
    · exact ih post fun u hu => h u (by simp [hu])

theorem matchOnLoop_skip :
    ∀ (pre l : List LegacyMatcher),
      (∀ p ∈ pre, p.match' = (false, none)) →
      LegacyRule.matchOnLoop (pre ++ l) = LegacyRule.matchOnLoop l := by
  intro pre
  induction pre with
  | nil => intro l _; rfl
  | cons m rest ih =>
    intro l h
    have hm : m.match' = (false, none) := h m (by simp)
    rw [List.cons_append, LegacyRule.matchOnLoop, hm]
    exact ih l fun u hu => h u (by simp [hu])

/-! ## Helper lemmas: the matchAny loop -/

theorem matchAnyLoop_all_nonmatch (r : Rule) (features : Features) :
    ∀ (elems : List MatchAnyElem) (ret : Labels),
      (∀ e ∈ elems, e.match' features = (none, none)) →
      r.matchAnyLoop features elems false ret = .noMatch := by
  intro elems
  induction elems with
  | nil => intro ret _; rfl
  | cons elem rest ih =>
    intro ret h
    have he : elem.match' features = (none, none) := h elem (by simp)
    rw [Rule.matchAnyLoop, he]
    exact ih ret fun u hu => h u (by simp [hu])

theorem matchAnyLoop_skip_to_match (r : Rule) (features : Features)
    (ht : r.labelsTemplate = none) :
    ∀ (pre : List MatchAnyElem) (a : MatchAnyElem) (post : List MatchAnyElem)
      (m : MatchedFeatures) (ret : Labels),
      (∀ e ∈ pre, e.match' features = (none, none)) →
      a.match' features = (some m, none) →
      r.matchAnyLoop features (pre ++ a :: post) false ret = .cont ret := by
  intro pre
  induction pre with
  | nil =>
    intro a post m ret _ ha
    rw [List.nil_append, Rule.matchAnyLoop, ha, ht]
  | cons e rest ih =>
    intro a post m ret h ha
    have he : e.match' features = (none, none) := h e (by simp)
    rw [List.cons_append, Rule.matchAnyLoop, he]
    exact ih a post m ret (fun u hu => h u (by simp [hu])) ha

theorem matchAnyLoop_template (r : Rule) (features : Features)
    (tmpl : MatchedFeatures → Except String String)
    (ht : r.labelsTemplate = some tmpl) :
    ∀ (elems : List MatchAnyElem) (matched : Bool) (ret : Labels),
      (∀ e ∈ elems, (e.match' features).2 = none) →
      r.matchAnyLoop features elems matched ret =
        (if matched || !(elems.filterMap (fun e => (e.match' features).1)).isEmpty
         then phaseOfAccum
            (r.accumulateMatches (elems.filterMap (fun e => (e.match' features).1)) ret)
         else .noMatch) := by
  intro elems
  induction elems with
  | nil =>
    intro matched ret _
    cases matched <;> rfl
  | cons elem rest ih =>
    intro matched ret h
    have h2 : (elem.match' features).2 = none := h elem (by simp)
    rcases helem : elem.match' features with ⟨o, err⟩
    rw [helem] at h2
    subst h2
    cases o with
    | none =>
      rw [Rule.matchAnyLoop, helem, List.filterMap_cons]
      rw [helem]
      exact ih matched ret fun u hu => h u (by simp [hu])
    | some m =>
      rw [Rule.matchAnyLoop, helem, ht, List.filterMap_cons, helem]
      simp only [Option.isSome]
      cases hex : r.executeLabelsTemplate m ret with
      | error e =>
        rw [Rule.accumulateMatches, hex]
        simp [phaseOfAccum]
      | ok ret' =>
        show r.matchAnyLoop features rest true ret' = _
        rw [ih true ret' (fun u hu => h u (by simp [hu]))]
        rw [Rule.accumulateMatches, hex]
        simp

/-! ## Unfolding equations for Rule.execute -/

theorem execute_matchAny_error (r : Rule) (features : Features) (e : String)
    (hA : r.matchAnyPhase features = .error e) :
    r.execute features = (none, some e) := by
  rw [Rule.execute, hA]

theorem execute_matchAny_noMatch (r : Rule) (features : Features)
    (hA : r.matchAnyPhase features = .noMatch) :
    r.execute features = (none, none) := by
  rw [Rule.execute, hA]

theorem execute_cont (r : Rule) (features : Features) (ret : Labels)
    (hA : r.matchAnyPhase features = .cont ret) :
    r.execute features =
      (match r.matchFeaturesPhase features ret with
        | .error e => (none, some e)
        | .noMatch => (none, none)
        | .cont ret' => (some (mergeLabels ret' r.labels), none)) := by
  rw [Rule.execute, hA]

/-! ## Claim C10 -/

/-- C10: whenever modern-rule execute returns a non-nil error, the
returned label map is nil — no partial labels are emitted even when
earlier alternatives had already expanded the template into the
accumulator. -/
theorem c10_error_implies_nil_labels (r : Rule) (features : Features) (e : String)
    (h : (r.execute features).2 = some e) : (r.execute features).1 = none := by
  rcases hA : r.matchAnyPhase features with e' | _ | ret
  · rw [execute_matchAny_error r features e' hA]
  · rw [execute_matchAny_noMatch r features hA]
  · rw [execute_cont r features ret hA] at h ⊢
    rcases hF : r.matchFeaturesPhase features ret with e' | _ | ret'
    · rfl
    · rfl
    · rw [hF] at h; simp at h

/-- C10 witness: a rule whose first alternative matches and expands the
template and whose second alternative raises an error really does return
no labels together with its error. -/
theorem c10_witness :
    (ruleC10.execute cpuFeatures).2 = some "unknown feature source/domain \"foo\"" ∧
    (ruleC10.execute cpuFeatures).1 = none :=
  ⟨rfl, c10_error_implies_nil_labels ruleC10 cpuFeatures
    "unknown feature source/domain \"foo\"" rfl⟩

/-! ## Claim C7 -/

/-- C7: serialized-rule decoding first parses generically and dispatches
on the top-level keys: the rule is decoded as a legacy rule exactly when
some key case-insensitively equals the legacy discriminator `matchOn`,
and as a modern rule otherwise. -/
theorem c7_unmarshal_dialect (raw : List String) :
    (CustomRule.unmarshalDialect raw = .legacy ↔
      ∃ k ∈ raw, toLowerGo k = toLowerGo "matchOn") ∧
    (CustomRule.unmarshalDialect raw = .modern ↔
      ∀ k ∈ raw, toLowerGo k ≠ toLowerGo "matchOn") := by
  have hm : toLowerGo "matchOn" = "matchon" := by decide
  rw [hm]
  by_cases h : raw.any (fun k => toLowerGo k = "matchon") = true
  · have hex : ∃ k ∈ raw, toLowerGo k = "matchon" := by simpa using h
    have hd : CustomRule.unmarshalDialect raw = .legacy := by
      unfold CustomRule.unmarshalDialect
      rw [if_pos h]
    refine ⟨⟨fun _ => hex, fun _ => hd⟩, fun hmod => ?_, fun hall => ?_⟩
    · rw [hd] at hmod; cases hmod
    · obtain ⟨k, hk, hkl⟩ := hex
      exact absurd hkl (hall k hk)
  · have hnall : ∀ k ∈ raw, toLowerGo k ≠ "matchon" := by
      intro k hk hcontra
      exact h (by simp only [List.any_eq_true, decide_eq_true_eq]; exact ⟨k, hk, hcontra⟩)
    have hd : CustomRule.unmarshalDialect raw = .modern := by
      unfold CustomRule.unmarshalDialect
      rw [if_neg h]
    refine ⟨⟨fun hleg => ?_, fun hex => ?_⟩, fun _ => hnall, fun _ => hd⟩
    · rw [hd] at hleg; cases hleg
    · obtain ⟨k, hk, hkl⟩ := hex
      exact absurd hkl (hnall k hk)

/-! ## Claim C8 -/

/-- C8 counterexample: encoding the wrapper with neither variant populated
does not fail — it serializes the nil modern variant (JSON `null`). -/
theorem c8_counterexample_encode_succeeds :
    CustomRule.marshalJSON ⟨none, none⟩ = .ok (.ruleDoc none) := rfl

/-- C8 amended: encoding serializes the legacy variant when populated and
the modern variant otherwise (the both-nil wrapper encodes as the nil
modern variant without error); it is executing a both-nil wrapper that
fails, with a generic BUG error. -/
theorem c8_amended_marshal_and_execute (c : CustomRule) (features : Features) :
    (∀ lr, c.legacyRule = some lr → c.marshalJSON = .ok (.legacyDoc lr)) ∧
    (c.legacyRule = none → c.marshalJSON = .ok (.ruleDoc c.rule)) ∧
    (c.legacyRule = none → c.rule = none →
      c.execute features = (none, some "BUG: an empty rule, this really should not happen")) := by
  refine ⟨?_, ?_, ?_⟩
  · intro lr h
    unfold CustomRule.marshalJSON
    rw [h]
  · intro h
    unfold CustomRule.marshalJSON
    rw [h]
  · intro h1 h2
    unfold CustomRule.execute
    rw [h1, h2]

/-- C8 witness: concrete instances of the amended behavior. -/
theorem c8_witness :
    CustomRule.execute ⟨none, none⟩ [] =
      (none, some "BUG: an empty rule, this really should not happen") ∧
    CustomRule.marshalJSON ⟨some ⟨"l", none, []⟩, none⟩ =
      .ok (.legacyDoc ⟨"l", none, []⟩) :=
  ⟨(c8_amended_marshal_and_execute ⟨none, none⟩ []).2.2 rfl rfl,
   (c8_amended_marshal_and_execute ⟨some ⟨"l", none, []⟩, none⟩ []).1 ⟨"l", none, []⟩ rfl⟩

/-! ## Claim C9 -/

/-- C9: an error raised while executing one rule aborts that rule only:
it contributes no labels, every other rule's labels are unaffected, and
the label-derivation pass itself never returns an error. -/
theorem c9_rule_error_isolated (conf1 conf2 : List CustomRule) (bad : CustomRule)
    (features : Features) (e : String) (h : (bad.execute features).2 = some e) :
    customSource.GetLabels (conf1 ++ bad :: conf2) features =
      customSource.GetLabels (conf1 ++ conf2) features ∧
    ∀ conf : List CustomRule, (customSource.GetLabels conf features).2 = none := by
  constructor
  · unfold customSource.GetLabels
    have hstep : ∀ acc : Labels, getLabelsStep features acc bad = acc := by
      intro acc
      unfold getLabelsStep
      rcases hb : bad.execute features with ⟨out, err⟩
      rw [hb] at h
      have he : err = some e := h
      subst he
      rfl
    congr 1
    rw [List.foldl_append, List.foldl_append, List.foldl_cons, hstep]
  · intro conf; rfl

/-- C9 witness: a rule list where the middle rule errors yields the same
labels as the list without it, with a nil overall error. -/
theorem c9_witness :
    customSource.GetLabels [legacyGood "l1", crEmpty, legacyGood "l2"] [] =
      customSource.GetLabels [legacyGood "l1", legacyGood "l2"] [] ∧
    (customSource.GetLabels [legacyGood "l1", crEmpty, legacyGood "l2"] []).2 = none := by
  have h := c9_rule_error_isolated [legacyGood "l1"] [legacyGood "l2"] crEmpty []
    "BUG: an empty rule, this really should not happen" rfl
  exact ⟨h.1, h.2 _⟩

/-! ## Claim C2 -/

/-- C2 counterexample: the v1alpha1 expander `expandMap` maps the output
`"a=1\nb\n\n  \n"` to `{"a":"1","b":""}` — the `=`-less line `b` receives
the empty string, not `"true"`. -/
theorem c2_counterexample_expandMap :
    templateHelper.expandMapLines "a=1\nb\n\n  \n" = [("a", "1"), ("b", "")] ∧
    assocLookup (templateHelper.expandMapLines "a=1\nb\n\n  \n") "b" ≠ some "true" := by
  refine ⟨rfl, ?_⟩
  intro h
  simp [assocLookup] at h

/-- C2 amended: both expanders split on newlines, trim each line, discard
blank lines and split once on the first `=`; the custom-source expander
maps an `=`-less line to the value `"true"` (so `"a=1\nb\n\n  \n"` yields
`{"a":"1","b":"true"}` there), while the v1alpha1 `expandMap` maps it to
`""` (yielding `{"a":"1","b":""}`). -/
theorem c2_amended_label_expansion (out : Labels) (line : String) :
    (expandLabels "a=1\nb\n\n  \n" [] = [("a", "1"), ("b", "true")]) ∧
    (templateHelper.expandMapLines "a=1\nb\n\n  \n" = [("a", "1"), ("b", "")]) ∧
    (splitChar '\n' "a=1\nb\n\n  \n" = ["a=1", "b", "", "  ", ""]) ∧
    (trimSpace line = "" → parseLine out line = out) ∧
    (trimSpace line ≠ "" → splitOnFirst (trimSpace line) '=' = none →
      parseLine out line = assocUpdate out (trimSpace line) "true") ∧
    (∀ k v, trimSpace line ≠ "" → splitOnFirst (trimSpace line) '=' = some (k, v) →
      parseLine out line = assocUpdate out k v) ∧
    (∀ (s : String) (k v : String), splitOnFirst s '=' = some (k, v) →
      s.toList = k.toList ++ '=' :: v.toList ∧ '=' ∉ k.toList) ∧
    (∀ s : String, splitOnFirst s '=' = none ↔ '=' ∉ s.toList) := by
  refine ⟨rfl, rfl, rfl, ?_, ?_, ?_, ?_, ?_⟩
  · intro h
    unfold parseLine
    rw [if_pos h]
  · intro h1 h2
    unfold parseLine
    rw [if_neg h1, h2]
  · intro k v h1 h2
    unfold parseLine
    rw [if_neg h1, h2]
  · intro s k v h
    unfold splitOnFirst at h
    cases hs : splitCharList '=' s.toList with
    | none => rw [hs] at h; cases h
    | some pr =>
      obtain ⟨pre, post⟩ := pr
      rw [hs] at h
      have h' := Option.some.inj h
      simp only [Prod.mk.injEq] at h'
      obtain ⟨hk, hv⟩ := h'
      obtain ⟨hl, hnm⟩ := splitCharList_eq_some '=' s.toList pre post hs
      rw [← hk, ← hv]
      exact ⟨hl, hnm⟩
  · intro s
    unfold splitOnFirst
    cases hs : splitCharList '=' s.toList with
    | none =>
      have hnm := (splitCharList_eq_none_iff '=' s.toList).mp hs
      exact ⟨fun _ => hnm, fun _ => rfl⟩
    | some pr =>
      obtain ⟨pre, post⟩ := pr
      obtain ⟨hl, _⟩ := splitCharList_eq_some '=' s.toList pre post hs
      have hmem : '=' ∈ s.toList := by rw [hl]; simp
      constructor
      · intro hh; cases hh
      · intro hh; exact absurd hmem hh

/-- C2 witness: a trimmed `=`-less line is stored with value `"true"` by
the custom-source expander. -/
theorem c2_witness :
    parseLine [] " b " = assocUpdate [] "b" "true" ∧
    expandLabels "a=1\nb\n\n  \n" [] = [("a", "1"), ("b", "true")] := by
  have h := c2_amended_label_expansion [] " b "
  exact ⟨h.2.2.2.2.1 (by decide) (by decide), h.1⟩

/-! ## Claim C5 -/

/-- C5 counterexample: a rule with static labels whose matchAny list does
not match yields no labels at all — the static labels are not merged when
the rule does not match. -/
theorem c5_counterexample_no_labels_on_nonmatch :
    ruleC5NoMatch.labels = [("a", "b")] ∧
    ruleC5NoMatch.execute cpuFeatures = (none, none) := ⟨rfl, rfl⟩

/-- C5 amended: whenever execute produces a result (the matchers matched,
or the rule has none), the static labels are merged last and override any
template-derived value of the same key; when a matcher does not match, the
rule yields no labels at all, static ones included. -/
theorem c5_amended_static_labels (r : Rule) (features : Features) :
    (∀ out k v, r.execute features = (some out, none) →
      assocLookup r.labels k = some v → (assocKeys r.labels).Nodup →
      assocLookup out k = some v) ∧
    (r.matchAny = [] → r.matchFeatures = [] →
      r.execute features = (some (mergeLabels [] r.labels), none)) := by
  constructor
  · intro out k v hex hl hnd
    rcases hA : r.matchAnyPhase features with e' | _ | ret
    · rw [execute_matchAny_error r features e' hA] at hex; simp at hex
    · rw [execute_matchAny_noMatch r features hA] at hex; simp at hex
    · rw [execute_cont r features ret hA] at hex
      rcases hF : r.matchFeaturesPhase features ret with e2 | _ | ret'
      · rw [hF] at hex; simp at hex
      · rw [hF] at hex; simp at hex
      · rw [hF] at hex
        simp only [Prod.mk.injEq, Option.some.injEq] at hex
        obtain ⟨ho, _⟩ := hex
        rw [← ho]
        exact assocLookup_mergeLabels_of_lookup r.labels ret' k v hl hnd
  · intro h1 h2
    have hA : r.matchAnyPhase features = .cont [] := by
      unfold Rule.matchAnyPhase
      rw [h1]
      rfl
    rw [execute_cont r features [] hA]
    have hF : r.matchFeaturesPhase features [] = .cont [] := by
      unfold Rule.matchFeaturesPhase
      rw [h2]
      rfl
    rw [hF]

/-- C5 witness: an unconditional rule returns exactly its static labels,
and the static value is the one observed in the result. -/
theorem c5_witness :
    ruleStaticOnly.execute [] = (some [("a", "b")], none) ∧
    assocLookup [("a", "b")] "a" = some "b" := by
  have h := c5_amended_static_labels ruleStaticOnly []
  have h2 : ruleStaticOnly.execute [] = (some [("a", "b")], none) := h.2 rfl rfl
  exact ⟨h2, h.1 [("a", "b")] "a" "b" h2 rfl (by simp [assocKeys, ruleStaticOnly])⟩

/-! ## Claim C6 -/

theorem matchOnLoop_all_fail (l : List LegacyMatcher)
    (h : ∀ p ∈ l, p.match' = (false, none)) :
    LegacyRule.matchOnLoop l = .ok false := by
  have hs := matchOnLoop_skip l [] h
  rw [List.append_nil] at hs
  rw [hs]
  rfl

/-- C6: legacy execute ORs across MatchOn with the first success winning
and later alternatives skipped; each alternative ANDs its set slots
(unset slots skipped, an all-unset alternative matches); zero alternatives
are unconditionally true; a match emits exactly the label
`name: value` (default `"true"`); no match yields no labels and no
error. -/
theorem c6_legacy_rule_semantics (features : Features) :
    (∀ (name : String) (value : Option String),
      LegacyRule.execute ⟨name, value, []⟩ features =
        (some [(name, value.getD "true")], none)) ∧
    (∀ (r : LegacyRule) (pre : List LegacyMatcher) (m : LegacyMatcher)
        (post : List LegacyMatcher),
      r.matchOn = pre ++ m :: post →
      (∀ p ∈ pre, p.match' = (false, none)) → m.match' = (true, none) →
      r.execute features = (some [(r.name, r.value.getD "true")], none)) ∧
    (∀ r : LegacyRule, r.matchOn ≠ [] →
      (∀ p ∈ r.matchOn, p.match' = (false, none)) →
      r.execute features = (none, none)) ∧
    (∀ mm : LegacyMatcher,
      (∀ s ∈ mm.allRules, s = none ∨ s = some (true, none)) →
      mm.match' = (true, none)) ∧
    (∀ (pre post : List (Option (Bool × Option String))),
      (∀ s ∈ pre, s = none ∨ s = some (true, none)) →
      matchRules (pre ++ some (false, none) :: post) = (false, none)) := by
  refine ⟨?_, ?_, ?_, ?_, ?_⟩
  · intro name value
    rfl
  · intro r pre m post hm hpre hmm
    unfold LegacyRule.execute
    rw [hm, if_pos (by simp), matchOnLoop_skip pre (m :: post) hpre,
      LegacyRule.matchOnLoop, hmm]
  · intro r hne hall
    unfold LegacyRule.execute
    rw [if_pos (by simpa [List.length_pos] using hne), matchOnLoop_all_fail r.matchOn hall]
  · intro mm hs
    unfold LegacyMatcher.match'
    exact matchRules_all_pass mm.allRules hs
  · exact matchRules_first_fail

/-- C6 witness: concrete legacy rules exercising the zero-alternative,
first-success, all-fail, all-unset and slot-AND behaviors. -/
theorem c6_witness :
    LegacyRule.execute ⟨"n", some "v", []⟩ [] = (some [("n", "v")], none) ∧
    LegacyRule.execute ⟨"r", none, [lmFail, lmUnset]⟩ [] = (some [("r", "true")], none) ∧
    LegacyRule.execute ⟨"q", none, [lmFail]⟩ [] = (none, none) ∧
    LegacyMatcher.match' lmUnset = (true, none) ∧
    matchRules [none, some (true, none), some (false, none), some (true, none)] =
      (false, none) := by
  have h := c6_legacy_rule_semantics []
  refine ⟨h.1 "n" (some "v"), ?_, ?_, ?_, ?_⟩
  · exact h.2.1 ⟨"r", none, [lmFail, lmUnset]⟩ [lmFail] lmUnset [] rfl
      (by decide) (by decide)
  · exact h.2.2.1 ⟨"q", none, [lmFail]⟩ (by simp) (by decide)
  · exact h.2.2.2.1 lmUnset (by decide)
  · exact h.2.2.2.2 [none, some (true, none)] [some (true, none)] (by decide)

/-! ## Claim C3 -/

/-- C3: for a FeatureMatcher whose terms all resolve without error, match
returns a non-nil result iff every term matches at least one element; any
non-matching term gives a nil result with no error; and flipping one term
from matching to non-matching flips the overall result from non-nil to
nil. -/
theorem c3_and_semantics (features : Features) :
    (∀ m : FeatureMatcher, (∀ t ∈ m, termNoError features t = true) →
      ((∃ mf, m.match' features = (some mf, none)) ↔
        ∀ t ∈ m, termMatches features t = true)) ∧
    (∀ m : FeatureMatcher, (∀ t ∈ m, termNoError features t = true) →
      (∃ t ∈ m, termMatches features t = false) →
      m.match' features = (none, none)) ∧
    (∀ (pre post : List FeatureMatcherTerm) (t t' : FeatureMatcherTerm),
      (∀ s ∈ pre ++ t :: post, termNoError features s = true) →
      termNoError features t' = true →
      (∀ s ∈ pre ++ t :: post, termMatches features s = true) →
      termMatches features t' = false →
      (∃ mf, FeatureMatcher.match' (pre ++ t :: post) features = (some mf, none)) ∧
      FeatureMatcher.match' (pre ++ t' :: post) features = (none, none)) := by
  have hfail : ∀ m : FeatureMatcher, (∀ t ∈ m, termNoError features t = true) →
      (∃ t ∈ m, termMatches features t = false) →
      m.match' features = (none, none) := by
    intro m hne hex
    exact matchTermsLoop_fail features m [] hne hex
  have hall : ∀ m : FeatureMatcher, (∀ t ∈ m, termNoError features t = true) →
      ((∃ mf, m.match' features = (some mf, none)) ↔
        ∀ t ∈ m, termMatches features t = true) := by
    intro m hne
    constructor
    · intro hsome
      by_contra hnall
      obtain ⟨t, ht, htf⟩ : ∃ t ∈ m, termMatches features t = false := by
        push_neg at hnall
        obtain ⟨t, ht, htf⟩ := hnall
        exact ⟨t, ht, by simpa using htf⟩
      obtain ⟨mf, hmf⟩ := hsome
      rw [hfail m hne ⟨t, ht, htf⟩] at hmf
      simp at hmf
    · intro hm
      exact matchTermsLoop_all features m [] hne hm
  refine ⟨hall, hfail, ?_⟩
  intro pre post t t' hne hne' hm hm'
  constructor
  · exact (hall (pre ++ t :: post) hne).mpr hm
  · refine hfail (pre ++ t' :: post) ?_ ⟨t', by simp, hm'⟩
    intro s hs
    rcases List.mem_append.mp hs with hs1 | hs2
    · exact hne s (by simp [hs1])
    · rcases List.mem_cons.mp hs2 with rfl | hs3
      · exact hne'
      · exact hne s (by simp [hs3])

/-- C3 witness: a two-term matcher over the two-domain snapshot matches;
replacing its first term with a never-matching one flips the result to a
nil non-match. -/
theorem c3_witness :
    (∃ mf, FeatureMatcher.match' [termFlagsAll, termNumaAll] twoDomainFeatures =
      (some mf, none)) ∧
    FeatureMatcher.match' [termFlagsNone, termNumaAll] twoDomainFeatures =
      (none, none) :=
  (c3_and_semantics twoDomainFeatures).2.2 [] [termNumaAll] termFlagsAll termFlagsNone
    (by decide) (by decide) (by decide) (by decide)

/-! ## Claim C4 -/

/-- C4 counterexample: the second term references the absent domain `foo`,
yet the matcher short-circuits on the first (non-matching) term and
returns a nil result without an error. -/
theorem c4_counterexample_short_circuit :
    FeatureMatcher.match' [termFlagsNone, termUnknownDomain] cpuFeatures =
      (none, none) := rfl

/-- C4 amended: for a term that evaluation reaches (every earlier term
matches without error — in particular the first or only term), an absent
domain makes match (and hence rule execute) return the unknown-domain
error, and a feature name found in none of the domain's three sets makes
it return the not-available error; a feature name present in the key set
is resolved there first. -/
theorem c4_amended_reached_term_errors (features : Features) :
    (∀ (pre post : List FeatureMatcherTerm) (t : FeatureMatcherTerm)
        (domain rest : String),
      (∀ s ∈ pre, termNoError features s = true) →
      (∀ s ∈ pre, termMatches features s = true) →
      splitOnFirst t.feature '.' = some (domain, rest) →
      assocLookup features domain = none →
      FeatureMatcher.match' (pre ++ t :: post) features =
        (none, some ("unknown feature source/domain \"" ++ domain ++ "\""))) ∧
    (∀ (pre post : List FeatureMatcherTerm) (t : FeatureMatcherTerm)
        (domain rest : String) (df : DomainFeatures),
      (∀ s ∈ pre, termNoError features s = true) →
      (∀ s ∈ pre, termMatches features s = true) →
      splitOnFirst t.feature '.' = some (domain, rest) →
      assocLookup features domain = some df →
      assocLookup df.keys (toLowerGo rest) = none →
      assocLookup df.values (toLowerGo rest) = none →
      assocLookup df.instances (toLowerGo rest) = none →
      FeatureMatcher.match' (pre ++ t :: post) features =
        (none, some ("\"" ++ toLowerGo rest ++ "\" feature of source/domain \"" ++
          domain ++ "\" not available"))) ∧
    (∀ (r : Rule) (e : String), r.matchAny = [] →
      r.matchFeatures.match' features = (none, some e) →
      r.matchFeatures ≠ [] →
      r.execute features = (none, some e)) ∧
    (∀ (t : FeatureMatcherTerm) (domain rest : String) (df : DomainFeatures)
        (f : KeyFeatureSet),
      splitOnFirst t.feature '.' = some (domain, rest) →
      assocLookup features domain = some df →
      assocLookup df.keys (toLowerGo rest) = some f →
      t.eval features = .res domain (toLowerGo rest)
        (.keys (t.matchExpressions.matchGetKeys f.elements).1)
        (t.matchExpressions.matchGetKeys f.elements).2) := by
  refine ⟨?_, ?_, ?_, ?_⟩
  · intro pre post t domain rest hne hm hsplit hdom
    have he : t.eval features =
        .err ("unknown feature source/domain \"" ++ domain ++ "\"") := by
      simp only [FeatureMatcherTerm.eval, hsplit, hdom]
    obtain ⟨ret', hl⟩ := matchTermsLoop_append_matching features pre (t :: post) [] hne hm
    unfold FeatureMatcher.match'
    rw [hl, matchTermsLoop, he]
  · intro pre post t domain rest df hne hm hsplit hdom hk hv hi
    have he : t.eval features =
        .err ("\"" ++ toLowerGo rest ++ "\" feature of source/domain \"" ++
          domain ++ "\" not available") := by
      simp only [FeatureMatcherTerm.eval, hsplit, hdom, hk, hv, hi]
    obtain ⟨ret', hl⟩ := matchTermsLoop_append_matching features pre (t :: post) [] hne hm
    unfold FeatureMatcher.match'
    rw [hl, matchTermsLoop, he]
  · intro r e hAny hmf hne
    have hA : r.matchAnyPhase features = .cont [] := by
      unfold Rule.matchAnyPhase
      rw [hAny]
      rfl
    rw [execute_cont r features [] hA]
    have hF : r.matchFeaturesPhase features [] = .error e := by
      unfold Rule.matchFeaturesPhase
      rw [if_pos (List.length_pos.mpr hne), hmf]
    rw [hF]
  · intro t domain rest df f hsplit hdom hk
    simp only [FeatureMatcherTerm.eval, hsplit, hdom, hk]

/-- C4 witness: the unknown-domain and unknown-feature errors surface from
match and from rule execute on concrete inputs. -/
theorem c4_witness :
    FeatureMatcher.match' [termFlagsAll, termUnknownDomain] cpuFeatures =
      (none, some "unknown feature source/domain \"foo\"") ∧
    FeatureMatcher.match' [termUnknownFeature] cpuFeatures =
      (none, some "\"bar\" feature of source/domain \"cpu\" not available") ∧
    Rule.execute ⟨"r4", [], none, [termUnknownDomain], []⟩ cpuFeatures =
      (none, some "unknown feature source/domain \"foo\"") := by
  have h := c4_amended_reached_term_errors cpuFeatures
  refine ⟨?_, ?_, ?_⟩
  · exact h.1 [termFlagsAll] [] termUnknownDomain "foo" "bar"
      (by decide) (by decide) (by decide) (by decide)
  · exact h.2.1 [] [] termUnknownFeature "cpu" "bar" ⟨[("flags", ⟨["sse", "avx"]⟩)], [], []⟩
      (by decide) (by decide) (by decide) (by decide) (by decide) (by decide) (by decide)
  · exact h.2.2.1 ⟨"r4", [], none, [termUnknownDomain], []⟩
      "unknown feature source/domain \"foo\"" rfl rfl (by simp)

/-! ## Claim C1 -/

/-- C1: with a non-empty MatchAny list, execute ORs over the alternatives
in declaration order: no alternative matching yields a nil result with no
error; without a template the first matching alternative ends the loop
(later alternatives, even erroring ones, are never consulted); with a
template the outputs of every matching alternative are accumulated in
order, an update of an existing key overwriting the earlier value. -/
theorem c1_matchany_semantics (features : Features) :
    (∀ r : Rule, r.matchAny ≠ [] →
      (∀ e ∈ r.matchAny, e.match' features = (none, none)) →
      r.execute features = (none, none)) ∧
    (∀ (r : Rule) (pre : List MatchAnyElem) (a : MatchAnyElem)
        (post : List MatchAnyElem),
      r.labelsTemplate = none → r.matchAny = pre ++ a :: post →
      (∀ e ∈ pre, e.match' features = (none, none)) →
      (∃ m, a.match' features = (some m, none)) →
      r.execute features = Rule.execute { r with matchAny := [a] } features) ∧
    (∀ (r : Rule) (tmpl : MatchedFeatures → Except String String),
      r.matchAny ≠ [] → r.labelsTemplate = some tmpl →
      (∀ e ∈ r.matchAny, (e.match' features).2 = none) →
      r.matchAnyPhase features =
        (if (r.matchAny.filterMap (fun e => (e.match' features).1)).isEmpty
         then PhaseResult.noMatch
         else phaseOfAccum (r.accumulateMatches
           (r.matchAny.filterMap (fun e => (e.match' features).1)) []))) ∧
    (∀ (out : Labels) (k v : String), assocLookup (assocUpdate out k v) k = some v) ∧
    (∀ (out : Labels) (k v k' : String), k' ≠ k →
      assocLookup (assocUpdate out k v) k' = assocLookup out k') := by
  refine ⟨?_, ?_, ?_, ?_, ?_⟩
  · intro r hne hall
    have hA : r.matchAnyPhase features = .noMatch := by
      unfold Rule.matchAnyPhase
      rw [if_pos (List.length_pos.mpr hne)]
      exact matchAnyLoop_all_nonmatch r features r.matchAny [] hall
    exact execute_matchAny_noMatch r features hA
  · intro r pre a post ht hm hpre hex
    obtain ⟨mfa, ha⟩ := hex
    have hA : r.matchAnyPhase features = .cont [] := by
      unfold Rule.matchAnyPhase
      rw [hm, if_pos (by simp)]
      exact matchAnyLoop_skip_to_match r features ht pre a post mfa [] hpre ha
    have hA' : Rule.matchAnyPhase { r with matchAny := [a] } features = .cont [] := by
      unfold Rule.matchAnyPhase
      rw [if_pos (by simp)]
      exact matchAnyLoop_skip_to_match { r with matchAny := [a] } features ht
        [] a [] mfa [] (by simp) ha
    rw [execute_cont r features [] hA, execute_cont _ features [] hA']
    rfl
  · intro r tmpl hne ht hsnd
    unfold Rule.matchAnyPhase
    rw [if_pos (List.length_pos.mpr hne),
      matchAnyLoop_template r features tmpl ht r.matchAny false [] hsnd]
    cases hms : (r.matchAny.filterMap fun e => (e.match' features).1).isEmpty
    · simp [hms]
    · simp [hms]
  · intro out k v
    exact assocLookup_assocUpdate_self out k v
  · intro out k v k' hne
    exact assocLookup_assocUpdate_ne out k k' v hne

/-- C1 witness: a template-less rule is insensitive to alternatives after
the first matching one (including a later erroring alternative); a
templated rule's matchAny phase is the in-order accumulation over all
matching alternatives, and its colliding key ends up with the later
alternative's value; an all-non-matching rule returns nil labels and nil
error. -/
theorem c1_witness :
    ruleFirstMatchStops.execute cpuFeatures =
      Rule.execute { ruleFirstMatchStops with matchAny := [elemFlagsAll] } cpuFeatures ∧
    ruleAccum.matchAnyPhase twoDomainFeatures =
      phaseOfAccum (ruleAccum.accumulateMatches
        (ruleAccum.matchAny.filterMap (fun e => (e.match' twoDomainFeatures).1)) []) ∧
    ruleAccum.execute twoDomainFeatures = (some [("k", "late")], none) ∧
    Rule.execute ⟨"c1n", [], none, [], [elemFlagsNone]⟩ cpuFeatures = (none, none) := by
  have h1 := c1_matchany_semantics cpuFeatures
  have h2 := c1_matchany_semantics twoDomainFeatures
  refine ⟨?_, ?_, rfl, ?_⟩
  · exact h1.2.1 ruleFirstMatchStops [elemFlagsNone] elemFlagsAll [elemUnknownDomain]
      rfl rfl
      (by intro e he; rw [List.mem_singleton] at he; subst he; rfl)
      ⟨[("cpu", [(("flags" : String), MatchedValue.keys ["sse", "avx"])])], rfl⟩
  · exact h2.2.2.1 ruleAccum tmplByDomain (by simp [ruleAccum]) rfl (by decide)
  · exact h1.1 ⟨"c1n", [], none, [], [elemFlagsNone]⟩ (by simp)
      (by intro e he; rw [List.mem_singleton] at he; subst he; rfl)
